import Mathlib

/-!
Shallow embedding of the keyboard shortcut dispatch component of the
xipchat browser extension (`KeyboardShortcutManager` and its helpers).

Modelling decisions:
* A `ShortcutAction` mirrors the runtime shape of the TypeScript object.
  The primary `key` is an `Option String` because at runtime a caller may
  omit it (TypeScript types are erased); the JavaScript truthiness test
  `if (shortcut.key)` is modelled as "present and nonempty".  Modifier
  flags are `Bool` (an absent flag behaves exactly like `false` under the
  truthiness tests the code performs).  The handler callback is modelled
  by an opaque numeric identifier `action`; invoking a handler is recorded
  by appending its identifier to the dispatch result.
* The JavaScript `Map<string, ShortcutAction>` is modelled as an
  association list with `Map.set` semantics: updating an existing key
  replaces the entry in place, otherwise the entry is appended.
* The DOM document is modelled by `listenerCount`, the number of attached
  `keydown` listeners; each attached listener delivers one dispatch cycle
  per event.
* `navigator.platform`-based macOS detection is an input `isMac : Bool`
  to `formatShortcut`.
* `formatShortcut` returns `Option String`: `none` models the TypeError
  that `shortcut.key.toLowerCase()` would raise when `key` is absent.
-/

namespace KeyboardShortcutManager

/-- JavaScript `String.prototype.toLowerCase`, as the source applies it to
key identifiers (ASCII case mapping, which coincides with JavaScript on
every key name the component handles).  Defined over the character list so
that it reduces in the kernel. -/
def jsToLower (s : String) : String :=
  ⟨s.data.map Char.toLower⟩

/-- JavaScript `String.prototype.toUpperCase`, same remarks as
`jsToLower`. -/
def jsToUpper (s : String) : String :=
  ⟨s.data.map Char.toUpper⟩

structure ShortcutAction where
  key : Option String := none
  ctrlKey : Bool := false
  altKey : Bool := false
  shiftKey : Bool := false
  metaKey : Bool := false
  description : String := ""
  action : Nat := 0
deriving DecidableEq, Repr

/-- `getShortcutKey`: canonical key of a (possibly incomplete) shortcut,
mirroring the source: push "ctrl", "alt", "shift", "meta" for truthy
flags, then the lowercased key if truthy, and join with "+". -/
def getShortcutKey (s : ShortcutAction) : String :=
  String.intercalate "+"
    ((if s.ctrlKey then ["ctrl"] else []) ++
     (if s.altKey then ["alt"] else []) ++
     (if s.shiftKey then ["shift"] else []) ++
     (if s.metaKey then ["meta"] else []) ++
     (match s.key with
      | some k => if k = "" then [] else [jsToLower k]
      | none => []))

/-- Association list with JavaScript `Map` semantics for the `shortcuts`
field. -/
abbrev ShortcutMap : Type := List (String × ShortcutAction)

/-- `Map.get`: value of the first (only, given key uniqueness) entry with
the given key. -/
def mapGet (m : ShortcutMap) (k : String) : Option ShortcutAction :=
  (m.find? (fun p => p.1 = k)).map Prod.snd

/-- `Map.set`: replace in place when the key is present, else append. -/
def mapSet (m : ShortcutMap) (k : String) (v : ShortcutAction) : ShortcutMap :=
  if m.any (fun p => p.1 = k) then
    m.map (fun p => if p.1 = k then (k, v) else p)
  else
    m ++ [(k, v)]

/-- `Map.delete`: remove every entry with the given key (at most one is
ever present). -/
def mapDelete (m : ShortcutMap) (k : String) : ShortcutMap :=
  m.filter (fun p => ¬ p.1 = k)

/-- Number of entries stored under a given key. -/
def countKey (m : ShortcutMap) (k : String) : Nat :=
  (m.filter (fun p => p.1 = k)).length

/-- Keys of the map, in storage order. -/
def keysOf (m : ShortcutMap) : List String :=
  m.map Prod.fst

/-- The at-most-one-binding-per-combination invariant: stored keys are
pairwise distinct. -/
def keysNodup (m : ShortcutMap) : Prop :=
  (keysOf m).Nodup

/-- The manager's mutable state: the `shortcuts` map, the `isListening`
flag, and the number of `keydown` listeners attached to the document. -/
structure ManagerState where
  shortcuts : ShortcutMap
  isListening : Bool
  listenerCount : Nat
deriving DecidableEq, Repr

/-- Freshly constructed manager: empty map, not listening, no listener
attached. -/
def initialState : ManagerState :=
  { shortcuts := [], isListening := false, listenerCount := 0 }

/-- `register(shortcut)`: store the shortcut under its canonical key. -/
def register (st : ManagerState) (s : ShortcutAction) : ManagerState :=
  { st with shortcuts := mapSet st.shortcuts (getShortcutKey s) s }

/-- `unregister(shortcut)`: delete the entry under the shortcut's
canonical key. -/
def unregister (st : ManagerState) (s : ShortcutAction) : ManagerState :=
  { st with shortcuts := mapDelete st.shortcuts (getShortcutKey s) }

/-- `startListening()`: attach the keydown listener and set the flag,
unless already listening. -/
def startListening (st : ManagerState) : ManagerState :=
  if !st.isListening then
    { st with listenerCount := st.listenerCount + 1, isListening := true }
  else
    st

/-- `stopListening()`: detach the keydown listener and clear the flag,
only if currently listening. -/
def stopListening (st : ManagerState) : ManagerState :=
  if st.isListening then
    { st with listenerCount := st.listenerCount - 1, isListening := false }
  else
    st

/-- `getShortcuts()`: the registered shortcuts, in map iteration order. -/
def getShortcuts (st : ManagerState) : List ShortcutAction :=
  st.shortcuts.map Prod.snd

/-- A captured `keydown` event: primary key, the four modifier flags, and
the classification data of its target element that `handleKeyDown`
inspects. -/
structure KeyboardEvent where
  key : String
  ctrlKey : Bool := false
  altKey : Bool := false
  shiftKey : Bool := false
  metaKey : Bool := false
  targetTagName : String := "DIV"
  targetIsContentEditable : Bool := false
deriving DecidableEq, Repr

/-- The editable-target test of `handleKeyDown`:
`target.tagName === 'INPUT' || target.tagName === 'TEXTAREA' ||
target.isContentEditable`. -/
def isEditableTarget (e : KeyboardEvent) : Bool :=
  e.targetTagName == "INPUT" || e.targetTagName == "TEXTAREA" ||
    e.targetIsContentEditable

/-- The lookup key `handleKeyDown` computes from the event, via
`getShortcutKey` on an object carrying exactly the event's key and
modifier flags. -/
def eventShortcutKey (e : KeyboardEvent) : String :=
  getShortcutKey
    { key := some e.key, ctrlKey := e.ctrlKey, altKey := e.altKey,
      shiftKey := e.shiftKey, metaKey := e.metaKey }

/-- Observable outcome of one `handleKeyDown` call: the (unchanged)
manager state, whether `preventDefault` and `stopPropagation` were
called, and the identifiers of the handlers invoked, in order. -/
structure DispatchResult where
  state : ManagerState
  defaultPrevented : Bool
  propagationStopped : Bool
  invokedHandlers : List Nat
deriving DecidableEq, Repr

/-- `handleKeyDown(event)`: ignore events on editable targets; otherwise
look up the event's canonical key and, on a hit, prevent default, stop
propagation and invoke the bound handler. -/
def handleKeyDown (st : ManagerState) (e : KeyboardEvent) : DispatchResult :=
  if isEditableTarget e then
    { state := st, defaultPrevented := false, propagationStopped := false,
      invokedHandlers := [] }
  else
    match mapGet st.shortcuts (eventShortcutKey e) with
    | some s =>
        { state := st, defaultPrevented := true, propagationStopped := true,
          invokedHandlers := [s.action] }
    | none =>
        { state := st, defaultPrevented := false, propagationStopped := false,
          invokedHandlers := [] }

/-- Display name of the primary key: the glyph substitution table of
`formatShortcut` (case-insensitive), defaulting to the upper-cased
key. -/
def keyDisplayName (key : String) : String :=
  let lk := jsToLower key
  if lk = "enter" then "↵"
  else if lk = "escape" then "Esc"
  else if lk = "arrowup" then "↑"
  else if lk = "arrowdown" then "↓"
  else if lk = "arrowleft" then "←"
  else if lk = "arrowright" then "→"
  else if lk = " " then "Space"
  else jsToUpper key

/-- `formatShortcut(shortcut)` with the platform test
`navigator.platform.toUpperCase().indexOf('MAC') >= 0` supplied as
`isMac`.  Returns `none` when the shortcut has no key (the source would
throw calling `toLowerCase()` on `undefined`). -/
def formatShortcut (isMac : Bool) (s : ShortcutAction) : Option String :=
  s.key.map fun k =>
    String.intercalate (if isMac then "" else "+")
      ((if s.ctrlKey then [if isMac then "⌘" else "Ctrl"] else []) ++
       (if s.altKey then [if isMac then "⌥" else "Alt"] else []) ++
       (if s.shiftKey then [if isMac then "⇧" else "Shift"] else []) ++
       (if s.metaKey && !isMac then ["Meta"] else []) ++
       [keyDisplayName k])

/-- The operations a client can perform on the manager, used to describe
the reachable states. -/
inductive Op where
  | registerOp (s : ShortcutAction)
  | unregisterOp (s : ShortcutAction)
  | startOp
  | stopOp
  | keydownOp (e : KeyboardEvent)
deriving Repr

/-- Effect of one operation on the manager state (a keydown event leaves
the state as `handleKeyDown` returns it). -/
def applyOp (st : ManagerState) : Op → ManagerState
  | .registerOp s => register st s
  | .unregisterOp s => unregister st s
  | .startOp => startListening st
  | .stopOp => stopListening st
  | .keydownOp e => (handleKeyDown st e).state

/-- State reached from a fresh manager by a sequence of operations. -/
def runOps (ops : List Op) : ManagerState :=
  ops.foldl applyOp initialState

/-- The document holds one keydown listener exactly while the manager is
listening. -/
def listenerInv (st : ManagerState) : Prop :=
  st.listenerCount = if st.isListening then 1 else 0

theorem handleKeyDown_state (st : ManagerState) (e : KeyboardEvent) :
    (handleKeyDown st e).state = st := by
  unfold handleKeyDown
  split
  · rfl
  · split <;> rfl

theorem startListening_shortcuts (st : ManagerState) :
    (startListening st).shortcuts = st.shortcuts := by
  unfold startListening
  split <;> rfl

theorem stopListening_shortcuts (st : ManagerState) :
    (stopListening st).shortcuts = st.shortcuts := by
  unfold stopListening
  split <;> rfl

theorem listenerInv_applyOp (st : ManagerState) (op : Op)
    (h : listenerInv st) : listenerInv (applyOp st op) := by
  cases op with
  | registerOp s => exact h
  | unregisterOp s => exact h
  | startOp =>
      show listenerInv (startListening st)
      unfold listenerInv at h ⊢
      unfold startListening
      cases hL : st.isListening <;> simp [hL] at h ⊢ <;> simp [h]
  | stopOp =>
      show listenerInv (stopListening st)
      unfold listenerInv at h ⊢
      unfold stopListening
      cases hL : st.isListening <;> simp [hL] at h ⊢ <;> simp [h]
  | keydownOp e =>
      unfold listenerInv
      rw [applyOp, handleKeyDown_state]
      exact h

theorem listenerInv_foldl (ops : List Op) (st : ManagerState)
    (h : listenerInv st) : listenerInv (ops.foldl applyOp st) := by
  induction ops generalizing st with
  | nil => exact h
  | cons op ops ih => exact ih _ (listenerInv_applyOp st op h)

theorem listenerInv_runOps (ops : List Op) : listenerInv (runOps ops) :=
  listenerInv_foldl ops initialState rfl

theorem find?_eq_none_of_any_eq_false (m : ShortcutMap) (k : String)
    (h : m.any (fun p => p.1 = k) = false) :
    m.find? (fun p => p.1 = k) = none := by
  induction m with
  | nil => rfl
  | cons p m ih =>
      simp only [List.any_cons, Bool.or_eq_false_iff] at h
      simp only [List.find?_cons, h.1]
      exact ih h.2

theorem mapGet_mapSet_self (m : ShortcutMap) (k : String) (v : ShortcutAction) :
    mapGet (mapSet m k v) k = some v := by
  unfold mapSet
  split
  · rename_i h
    induction m with
    | nil => simp at h
    | cons p m ih =>
        by_cases hp : p.1 = k
        · simp [mapGet, List.find?_cons, hp]
        · simp only [List.any_cons, hp, decide_eq_true_eq, Bool.false_or,
            decide_eq_false hp] at h
          simp only [List.map_cons, if_neg hp]
          unfold mapGet at ih ⊢
          simp only [List.find?_cons, decide_eq_false hp]
          exact ih (by simpa using h)
  · rename_i h
    unfold mapGet
    rw [List.find?_append]
    rw [find?_eq_none_of_any_eq_false m k
      (by simp only [Bool.not_eq_true] at h; exact h)]
    simp [List.find?_cons]

theorem countKey_map_replace (m : ShortcutMap) (k : String) (v : ShortcutAction) :
    countKey (m.map (fun p => if p.1 = k then (k, v) else p)) k = countKey m k := by
  induction m with
  | nil => rfl
  | cons p m ih =>
      by_cases hp : p.1 = k
      · simp [countKey, List.filter_cons, hp] at ih ⊢
        exact ih
      · simp [countKey, List.filter_cons, hp] at ih ⊢
        exact ih

theorem countKey_eq_zero_of_not_mem (m : ShortcutMap) (k : String)
    (h : k ∉ keysOf m) : countKey m k = 0 := by
  induction m with
  | nil => rfl
  | cons p m ih =>
      simp only [keysOf, List.map_cons, List.mem_cons, not_or] at h
      have hp : ¬ p.1 = k := fun hk => h.1 hk.symm
      simp only [countKey, List.filter_cons, decide_eq_false hp]
      exact ih h.2

theorem countKey_mapSet_self (m : ShortcutMap) (k : String) (v : ShortcutAction)
    (h : keysNodup m) : countKey (mapSet m k v) k = 1 := by
  unfold mapSet
  split
  · rename_i hany
    rw [countKey_map_replace]
    induction m with
    | nil => simp at hany
    | cons p m ih =>
        unfold keysNodup keysOf at h
        simp only [List.map_cons, List.nodup_cons] at h
        by_cases hp : p.1 = k
        · have h0 : countKey m k = 0 :=
            countKey_eq_zero_of_not_mem m k (by rw [← hp]; exact h.1)
          unfold countKey at h0 ⊢
          simp [List.filter_cons, hp, h0]
        · simp only [List.any_cons, decide_eq_false hp, Bool.false_or] at hany
          simp only [countKey, List.filter_cons, decide_eq_false hp]
          exact ih h.2 hany
  · rename_i hany
    have h0 : countKey m k = 0 := by
      unfold countKey
      rw [List.filter_eq_nil_iff.mpr]
      · rfl
      · intro p hp
        simp only [Bool.not_eq_true] at hany ⊢
        by_contra hc
        simp only [Bool.not_eq_false, decide_eq_true_eq] at hc
        have : m.any (fun p => p.1 = k) = true :=
          List.any_eq_true.mpr ⟨p, hp, by simp [hc]⟩
        simp [this] at hany
    unfold countKey at h0 ⊢
    rw [List.filter_append, List.length_append, h0]
    simp [List.filter_cons]

theorem keysNodup_mapSet (m : ShortcutMap) (k : String) (v : ShortcutAction)
    (h : keysNodup m) : keysNodup (mapSet m k v) := by
  unfold mapSet
  split
  · have hk : keysOf (m.map (fun p => if p.1 = k then (k, v) else p)) = keysOf m := by
      unfold keysOf
      rw [List.map_map]
      congr 1
      funext p
      by_cases hp : p.1 = k <;> simp [hp]
    unfold keysNodup
    rw [hk]
    exact h
  · rename_i hany
    unfold keysNodup keysOf at h ⊢
    rw [List.map_append]
    simp only [List.map_cons, List.map_nil]
    rw [List.nodup_append]
    refine ⟨h, List.nodup_singleton k, ?_⟩
    intro a ha hb
    simp only [List.mem_singleton] at hb
    subst hb
    simp only [List.mem_map] at ha
    obtain ⟨p, hp, hpa⟩ := ha
    have : m.any (fun p => p.1 = a) = true :=
      List.any_eq_true.mpr ⟨p, hp, by simp [hpa]⟩
    simp [this] at hany

theorem keysNodup_mapDelete (m : ShortcutMap) (k : String)
    (h : keysNodup m) : keysNodup (mapDelete m k) := by
  unfold keysNodup keysOf mapDelete
  exact h.sublist ((List.filter_sublist m).map Prod.fst)

theorem mapDelete_eq_self_of_get_none (m : ShortcutMap) (k : String)
    (h : mapGet m k = none) : mapDelete m k = m := by
  unfold mapGet at h
  rw [Option.map_eq_none'] at h
  rw [List.find?_eq_none] at h
  unfold mapDelete
  rw [List.filter_eq_self.mpr]
  intro p hp
  have := h p hp
  simpa using this

theorem mapGet_mapDelete_self (m : ShortcutMap) (k : String) :
    mapGet (mapDelete m k) k = none := by
  unfold mapGet mapDelete
  rw [Option.map_eq_none', List.find?_eq_none]
  intro p hp
  rw [List.mem_filter] at hp
  simpa using hp.2

/-- C1: for a captured key event whose target is not an editable surface,
if the canonical key computed from the event's modifier flags and primary
key is bound, `handleKeyDown` suppresses the default behavior, stops
propagation, and invokes exactly the bound handler, once, leaving the
manager state unchanged; if it is unbound, it does nothing: no
suppression, no invocation, bindings and listening state unchanged. -/
theorem dispatch_nonEditable_hit_or_miss (st : ManagerState) (e : KeyboardEvent)
    (h : isEditableTarget e = false) :
    (∀ s : ShortcutAction, mapGet st.shortcuts (eventShortcutKey e) = some s →
        handleKeyDown st e =
          { state := st, defaultPrevented := true, propagationStopped := true,
            invokedHandlers := [s.action] }) ∧
    (mapGet st.shortcuts (eventShortcutKey e) = none →
        handleKeyDown st e =
          { state := st, defaultPrevented := false, propagationStopped := false,
            invokedHandlers := [] }) := by
  have hEd : ¬ (isEditableTarget e = true) := by simp [h]
  unfold handleKeyDown
  rw [if_neg hEd]
  constructor
  · intro s hs
    rw [hs]
  · intro hn
    rw [hn]

/-- C1 witness: with ctrl+s bound to handler 7, a ctrl+s keydown on a DIV
target is suppressed and invokes handler 7 exactly once. -/
theorem dispatch_nonEditable_hit_or_miss_witness :
    handleKeyDown
        { shortcuts := [("ctrl+s", { key := some "s", ctrlKey := true, action := 7 })],
          isListening := true, listenerCount := 1 }
        { key := "s", ctrlKey := true } =
      { state :=
          { shortcuts := [("ctrl+s", { key := some "s", ctrlKey := true, action := 7 })],
            isListening := true, listenerCount := 1 },
        defaultPrevented := true, propagationStopped := true,
        invokedHandlers := [7] } :=
  (dispatch_nonEditable_hit_or_miss
      { shortcuts := [("ctrl+s", { key := some "s", ctrlKey := true, action := 7 })],
        isListening := true, listenerCount := 1 }
      { key := "s", ctrlKey := true } rfl).1 _ rfl

/-- C2: a captured key event whose target is a text input, a text area,
or a content-editable element never invokes a handler and never
suppresses default behavior or propagation, whatever the bindings
contain. -/
theorem dispatch_editableTarget_ignored (st : ManagerState) (e : KeyboardEvent)
    (h : e.targetTagName = "INPUT" ∨ e.targetTagName = "TEXTAREA" ∨
         e.targetIsContentEditable = true) :
    handleKeyDown st e =
      { state := st, defaultPrevented := false, propagationStopped := false,
        invokedHandlers := [] } := by
  have hEd : isEditableTarget e = true := by
    unfold isEditableTarget
    rcases h with h | h | h <;> simp [h]
  unfold handleKeyDown
  rw [if_pos hEd]

/-- C2 witness: a ctrl+s keydown inside an INPUT element does not fire the
registered ctrl+s binding and suppresses nothing. -/
theorem dispatch_editableTarget_ignored_witness :
    handleKeyDown
        { shortcuts := [("ctrl+s", { key := some "s", ctrlKey := true, action := 7 })],
          isListening := true, listenerCount := 1 }
        { key := "s", ctrlKey := true, targetTagName := "INPUT" } =
      { state :=
          { shortcuts := [("ctrl+s", { key := some "s", ctrlKey := true, action := 7 })],
            isListening := true, listenerCount := 1 },
        defaultPrevented := false, propagationStopped := false,
        invokedHandlers := [] } :=
  dispatch_editableTarget_ignored _ _ (Or.inl rfl)

/-- C9: registering a shortcut whose primary key is absent does not fail:
its canonical key degenerates to the bare modifier prefix, and the
shortcut is stored in the map under that degenerate key. -/
theorem register_missingKey_degenerate (st : ManagerState) (b : ShortcutAction)
    (h : b.key = none) :
    getShortcutKey b =
      String.intercalate "+"
        ((if b.ctrlKey then ["ctrl"] else []) ++ (if b.altKey then ["alt"] else []) ++
         (if b.shiftKey then ["shift"] else []) ++ (if b.metaKey then ["meta"] else [])) ∧
    mapGet (register st b).shortcuts (getShortcutKey b) = some b := by
  constructor
  · unfold getShortcutKey
    rw [h]
    simp
  · exact mapGet_mapSet_self _ _ _

/-- C9 witness: a keyless ctrl+meta registration is stored under the
degenerate canonical key "ctrl+meta". -/
theorem register_missingKey_degenerate_witness :
    getShortcutKey ({ key := none, ctrlKey := true, metaKey := true, action := 3 } :
        ShortcutAction) = "ctrl+meta" ∧
    mapGet (register initialState
          { key := none, ctrlKey := true, metaKey := true, action := 3 }).shortcuts
        (getShortcutKey { key := none, ctrlKey := true, metaKey := true, action := 3 }) =
      some { key := none, ctrlKey := true, metaKey := true, action := 3 } := by
  have h := register_missingKey_degenerate initialState
    { key := none, ctrlKey := true, metaKey := true, action := 3 } rfl
  exact ⟨h.1.trans rfl, h.2⟩

/-- C10: the canonical-key computation is not injective: the binding
(alt, "x") and the modifier-free binding with key "alt+x" share the
canonical key, though their modifier flags and primary keys differ, so
registering the second silently replaces the first. -/
theorem canonicalKey_not_injective :
    getShortcutKey { key := some "x", altKey := true, action := 1 } =
      getShortcutKey { key := some "alt+x", action := 2 } ∧
    ({ key := some "x", altKey := true, action := 1 } : ShortcutAction).altKey ≠
      ({ key := some "alt+x", action := 2 } : ShortcutAction).altKey ∧
    ({ key := some "x", altKey := true, action := 1 } : ShortcutAction).key ≠
      ({ key := some "alt+x", action := 2 } : ShortcutAction).key ∧
    (register (register initialState { key := some "x", altKey := true, action := 1 })
        { key := some "alt+x", action := 2 }).shortcuts =
      [("alt+x", { key := some "alt+x", action := 2 })] :=
  ⟨rfl, by decide, by decide, rfl⟩

/-- C3: every operation preserves the invariant that at most one binding
is stored per canonical combination; registering B1 then B2 under the
same combination leaves exactly one entry for it, holding B2, and a
subsequent dispatch of that combination invokes B2's handler and only
it. -/
theorem binding_uniqueness_lastWriteWins :
    (∀ (st : ManagerState) (op : Op), keysNodup st.shortcuts →
        keysNodup ((applyOp st op).shortcuts)) ∧
    (∀ (st : ManagerState) (b1 b2 : ShortcutAction),
        keysNodup st.shortcuts → getShortcutKey b1 = getShortcutKey b2 →
        countKey ((register (register st b1) b2).shortcuts) (getShortcutKey b2) = 1 ∧
        mapGet ((register (register st b1) b2).shortcuts) (getShortcutKey b2) = some b2) ∧
    (∀ (st : ManagerState) (b1 b2 : ShortcutAction) (e : KeyboardEvent),
        keysNodup st.shortcuts → getShortcutKey b1 = getShortcutKey b2 →
        isEditableTarget e = false → eventShortcutKey e = getShortcutKey b2 →
        (handleKeyDown (register (register st b1) b2) e).invokedHandlers =
          [b2.action]) := by
  refine ⟨?_, ?_, ?_⟩
  · intro st op h
    cases op with
    | registerOp s => exact keysNodup_mapSet _ _ _ h
    | unregisterOp s => exact keysNodup_mapDelete _ _ h
    | startOp =>
        show keysNodup (startListening st).shortcuts
        rw [startListening_shortcuts]
        exact h
    | stopOp =>
        show keysNodup (stopListening st).shortcuts
        rw [stopListening_shortcuts]
        exact h
    | keydownOp e =>
        show keysNodup ((handleKeyDown st e).state).shortcuts
        rw [handleKeyDown_state]
        exact h
  · intro st b1 b2 h h12
    exact ⟨countKey_mapSet_self _ _ _ (keysNodup_mapSet _ _ _ h),
      mapGet_mapSet_self _ _ _⟩
  · intro st b1 b2 e h h12 hEd hKey
    have hget : mapGet (register (register st b1) b2).shortcuts
        (eventShortcutKey e) = some b2 := by
      rw [hKey]
      exact mapGet_mapSet_self _ _ _
    unfold handleKeyDown
    rw [if_neg (by simp [hEd])]
    rw [hget]

/-- C3 witness: registering (ctrl+s, handler 1) then (ctrl+S, handler 2)
leaves one ctrl+s entry, and dispatching ctrl+s invokes handler 2 only. -/
theorem binding_uniqueness_lastWriteWins_witness :
    countKey ((register (register initialState
        { key := some "s", ctrlKey := true, action := 1 })
        { key := some "S", ctrlKey := true, action := 2 }).shortcuts) "ctrl+s" = 1 ∧
    (handleKeyDown (register (register initialState
        { key := some "s", ctrlKey := true, action := 1 })
        { key := some "S", ctrlKey := true, action := 2 })
        { key := "s", ctrlKey := true }).invokedHandlers = [2] :=
  ⟨(binding_uniqueness_lastWriteWins.2.1 initialState
      { key := some "s", ctrlKey := true, action := 1 }
      { key := some "S", ctrlKey := true, action := 2 }
      List.nodup_nil rfl).1,
    binding_uniqueness_lastWriteWins.2.2 initialState
      { key := some "s", ctrlKey := true, action := 1 }
      { key := some "S", ctrlKey := true, action := 2 }
      { key := "s", ctrlKey := true }
      List.nodup_nil rfl rfl rfl⟩

/-- C5: from any reachable state, calling startListening twice in a row
leaves exactly one attached listener (so a single event delivers one
dispatch cycle) with the listening flag true; calling stopListening when
not listening — including when startListening was never called — changes
nothing (no detachment attempt), and afterwards the flag is false. -/
theorem listening_toggle_idempotent (ops : List Op) :
    (startListening (startListening (runOps ops))).listenerCount = 1 ∧
    (startListening (startListening (runOps ops))).isListening = true ∧
    ((runOps ops).isListening = false → stopListening (runOps ops) = runOps ops) ∧
    (stopListening (runOps ops)).isListening = false := by
  have hInv : listenerInv (runOps ops) := listenerInv_runOps ops
  unfold listenerInv at hInv
  set st := runOps ops with hst
  cases hL : st.isListening with
  | false =>
      rw [hL] at hInv
      simp only [Bool.false_eq_true, if_false] at hInv
      refine ⟨?_, ?_, ?_, ?_⟩
      · simp [startListening, hL, hInv]
      · simp [startListening, hL]
      · intro _
        simp [stopListening, hL]
      · simp [stopListening, hL]
  | true =>
      rw [hL] at hInv
      simp only [if_true] at hInv
      refine ⟨?_, ?_, ?_, ?_⟩
      · simp [startListening, hL, hInv]
      · simp [startListening, hL]
      · intro hc
        simp [hL] at hc
      · simp [stopListening, hL]

/-- C5 witness: on the fresh manager, double startListening yields one
listener, and stopListening without a prior start is a no-op. -/
theorem listening_toggle_idempotent_witness :
    (startListening (startListening (runOps []))).listenerCount = 1 ∧
    stopListening (runOps []) = runOps [] :=
  ⟨(listening_toggle_idempotent []).1,
    (listening_toggle_idempotent []).2.2.1 rfl⟩

/-- C6: the canonical key unregister computes ignores handler and
description; unregistering an unknown combination leaves the bindings
unchanged (no error); and after unregister no binding remains under the
combination's canonical key. -/
theorem unregister_identity_and_noop :
    (∀ (b : ShortcutAction) (d : String) (a : Nat),
        getShortcutKey { b with description := d, action := a } = getShortcutKey b) ∧
    (∀ (st : ManagerState) (b : ShortcutAction),
        mapGet st.shortcuts (getShortcutKey b) = none → unregister st b = st) ∧
    (∀ (st : ManagerState) (b : ShortcutAction),
        mapGet (unregister st b).shortcuts (getShortcutKey b) = none) := by
  refine ⟨?_, ?_, ?_⟩
  · intro b d a
    rfl
  · intro st b h
    unfold unregister
    rw [mapDelete_eq_self_of_get_none _ _ h]
  · intro st b
    exact mapGet_mapDelete_self _ _

/-- C6 witness: handler and description do not affect the canonical key
of alt+z, and unregistering alt+z from the empty registry is a no-op. -/
theorem unregister_identity_and_noop_witness :
    getShortcutKey { key := some "z", altKey := true, description := "d", action := 9 } =
      getShortcutKey { key := some "z", altKey := true } ∧
    unregister initialState { key := some "z", altKey := true } = initialState :=
  ⟨unregister_identity_and_noop.1 { key := some "z", altKey := true } "d" 9,
    unregister_identity_and_noop.2.1 initialState
      { key := some "z", altKey := true } rfl⟩

theorem mapGet_single (k k2 : String) (v : ShortcutAction) :
    mapGet [(k, v)] k2 = if k = k2 then some v else none := by
  unfold mapGet
  by_cases h : k = k2 <;> simp [List.find?_cons, h]

/-- C4: the canonical key of a binding with a (nonempty) primary key is
the present-modifier names in the fixed order ctrl, alt, shift, meta
followed by the lowercased key, joined by "+"; bindings whose modifiers
agree and whose keys agree up to case share a canonical key; and against
a single registered binding, a non-editable event fires the handler
exactly when the event's canonical key equals the binding's — so
registering key "s" matches an event with key "S". -/
theorem canonicalKey_formula_caseInsensitive :
    (∀ (c a sh m : Bool) (k : String), k ≠ "" →
        getShortcutKey
            { key := some k, ctrlKey := c, altKey := a,
              shiftKey := sh, metaKey := m } =
          String.intercalate "+"
            ((if c then ["ctrl"] else []) ++ (if a then ["alt"] else []) ++
             (if sh then ["shift"] else []) ++ (if m then ["meta"] else []) ++
             [jsToLower k])) ∧
    (∀ (b1 b2 : ShortcutAction) (k1 k2 : String),
        b1.key = some k1 → b2.key = some k2 → k1 ≠ "" → k2 ≠ "" →
        jsToLower k1 = jsToLower k2 →
        b1.ctrlKey = b2.ctrlKey → b1.altKey = b2.altKey →
        b1.shiftKey = b2.shiftKey → b1.metaKey = b2.metaKey →
        getShortcutKey b1 = getShortcutKey b2) ∧
    (∀ (b : ShortcutAction) (e : KeyboardEvent),
        isEditableTarget e = false →
        ((handleKeyDown (register initialState b) e).invokedHandlers =
            [b.action] ↔
          eventShortcutKey e = getShortcutKey b)) := by
  refine ⟨?_, ?_, ?_⟩
  · intro c a sh m k hk
    simp only [getShortcutKey]
    rw [if_neg hk]
  · intro b1 b2 k1 k2 hk1 hk2 hne1 hne2 hlow hc ha hs hm
    simp only [getShortcutKey, hk1, hk2, hc, ha, hs, hm, hlow,
      if_neg hne1, if_neg hne2]
  · intro b e hEd
    have hshort : (register initialState b).shortcuts =
        [(getShortcutKey b, b)] := rfl
    by_cases hke : eventShortcutKey e = getShortcutKey b
    · unfold handleKeyDown
      rw [if_neg (by simp [hEd]), hshort, mapGet_single, if_pos hke.symm]
      simp [hke]
    · unfold handleKeyDown
      rw [if_neg (by simp [hEd]), hshort, mapGet_single,
        if_neg (fun hh => hke hh.symm)]
      simp [hke]

/-- C4 witness: "ctrl"+"s" formula instance; bindings with keys "s" and
"S" share a canonical key; and an event with key "S" fires the binding
registered with key "s". -/
theorem canonicalKey_formula_caseInsensitive_witness :
    getShortcutKey { key := some "s", ctrlKey := true } = "ctrl+s" ∧
    getShortcutKey { key := some "s", ctrlKey := true, action := 1 } =
      getShortcutKey { key := some "S", ctrlKey := true, action := 2 } ∧
    (handleKeyDown (register initialState
        { key := some "s", ctrlKey := true, action := 5 })
        { key := "S", ctrlKey := true }).invokedHandlers = [5] :=
  ⟨(canonicalKey_formula_caseInsensitive.1 true false false false "s"
      (by decide)).trans rfl,
   canonicalKey_formula_caseInsensitive.2.1
      { key := some "s", ctrlKey := true, action := 1 }
      { key := some "S", ctrlKey := true, action := 2 }
      "s" "S" rfl rfl (by decide) (by decide) rfl rfl rfl rfl rfl,
   (canonicalKey_formula_caseInsensitive.2.2
      { key := some "s", ctrlKey := true, action := 5 }
      { key := "S", ctrlKey := true } rfl).mpr rfl⟩

theorem keyDisplayName_default (k : String)
    (h1 : jsToLower k ≠ "enter") (h2 : jsToLower k ≠ "escape")
    (h3 : jsToLower k ≠ "arrowup") (h4 : jsToLower k ≠ "arrowdown")
    (h5 : jsToLower k ≠ "arrowleft") (h6 : jsToLower k ≠ "arrowright")
    (h7 : jsToLower k ≠ " ") : keyDisplayName k = jsToUpper k := by
  simp only [keyDisplayName, if_neg h1, if_neg h2, if_neg h3, if_neg h4,
    if_neg h5, if_neg h6, if_neg h7]

/-- C7: display formatting renders ctrl, alt, shift, meta in that order
then the key glyph; macOS-like platforms use ⌘/⌥/⇧ with no separator and
never render meta; other platforms use Ctrl/Alt/Shift/Meta joined by "+";
{ctrl, Enter} formats as "Ctrl+↵" on non-macOS-like platforms and "⌘↵" on
macOS-like ones; keys outside the glyph table render upper-cased. -/
theorem formatShortcut_platform_rendering :
    formatShortcut false { key := some "Enter", ctrlKey := true } = some "Ctrl+↵" ∧
    formatShortcut true { key := some "Enter", ctrlKey := true } = some "⌘↵" ∧
    formatShortcut true
        { key := some "k", ctrlKey := true, altKey := true,
          shiftKey := true, metaKey := true } = some "⌘⌥⇧K" ∧
    formatShortcut false
        { key := some "k", ctrlKey := true, altKey := true,
          shiftKey := true, metaKey := true } = some "Ctrl+Alt+Shift+Meta+K" ∧
    (∀ s : ShortcutAction, formatShortcut true s =
        formatShortcut true { s with metaKey := false }) ∧
    (∀ (isMac : Bool) (k : String),
        jsToLower k ≠ "enter" → jsToLower k ≠ "escape" → jsToLower k ≠ "arrowup" →
        jsToLower k ≠ "arrowdown" → jsToLower k ≠ "arrowleft" →
        jsToLower k ≠ "arrowright" → jsToLower k ≠ " " →
        formatShortcut isMac { key := some k } = some (jsToUpper k)) := by
  refine ⟨rfl, rfl, rfl, rfl, ?_, ?_⟩
  · intro s
    simp [formatShortcut]
  · intro isMac k h1 h2 h3 h4 h5 h6 h7
    simp only [formatShortcut, Option.map_some',
      keyDisplayName_default k h1 h2 h3 h4 h5 h6 h7]
    cases isMac <;> rfl

/-- C7 witness: a plain key outside the glyph table ("q") renders
upper-cased on a non-macOS-like platform. -/
theorem formatShortcut_platform_rendering_witness :
    formatShortcut false { key := some "q" } = some "Q" :=
  formatShortcut_platform_rendering.2.2.2.2.2 false "q"
    (by decide) (by decide) (by decide) (by decide) (by decide) (by decide)
    (by decide)

/-- C8: `formatShortcut` and `getShortcutKey` are pure functions of the
binding's modifier flags and primary key: repeated calls on identical
inputs agree, and bindings differing only in handler or description give
identical results. -/
theorem formatShortcut_getShortcutKey_pure :
    (∀ (isMac : Bool) (b : ShortcutAction),
        formatShortcut isMac b = formatShortcut isMac b ∧
        getShortcutKey b = getShortcutKey b) ∧
    (∀ (isMac : Bool) (b1 b2 : ShortcutAction),
        b1.key = b2.key → b1.ctrlKey = b2.ctrlKey → b1.altKey = b2.altKey →
        b1.shiftKey = b2.shiftKey → b1.metaKey = b2.metaKey →
        formatShortcut isMac b1 = formatShortcut isMac b2 ∧
        getShortcutKey b1 = getShortcutKey b2) := by
  refine ⟨fun _ _ => ⟨rfl, rfl⟩, ?_⟩
  intro isMac b1 b2 hk hc ha hs hm
  constructor
  · unfold formatShortcut
    rw [hk, hc, ha, hs, hm]
  · unfold getShortcutKey
    rw [hk, hc, ha, hs, hm]

/-- C8 witness: two ctrl+n bindings differing only in description and
handler format and canonicalize identically. -/
theorem formatShortcut_getShortcutKey_pure_witness :
    formatShortcut false
        { key := some "n", ctrlKey := true, description := "a", action := 1 } =
      formatShortcut false
        { key := some "n", ctrlKey := true, description := "b", action := 2 } ∧
    getShortcutKey
        { key := some "n", ctrlKey := true, description := "a", action := 1 } =
      getShortcutKey
        { key := some "n", ctrlKey := true, description := "b", action := 2 } :=
  formatShortcut_getShortcutKey_pure.2 false
    { key := some "n", ctrlKey := true, description := "a", action := 1 }
    { key := some "n", ctrlKey := true, description := "b", action := 2 }
    rfl rfl rfl rfl rfl

end KeyboardShortcutManager
